import Mathlib

/-!
Shallow embedding of the roll inventory service (`src/main.py`): the `Roll`
data model, the repository operations of `CRUDRoll` (`create_roll`,
`delete_roll`, `get_roll`, `get_rolls`, `get_stats`) and the HTTP endpoint
adapters, over an explicit store state.

Modelling choices:
- Python floats and timestamps are modelled as rationals (`ℚ`); a timestamp
  is a rational number of seconds, so the source's
  `(date_removed - date_added).total_seconds() / 3600` is `(dr - da) / 3600`.
- The SQL table is a list of rows plus the autoincrement counter for the
  integer primary key.
- SQL comparison against a NULL column never matches (`BETWEEN`, `>=`, `<=`
  on a nullable column exclude NULL rows); nullable columns are `Option ℚ`
  and those comparisons return `false` on `none`.
- A raised `HTTPException(status_code, detail)` is an `Except.error` carrying
  the pair; success is `Except.ok`.
-/

namespace Asa

/-- One row of the `rolls` table (`class Roll` in `src/main.py`): integer
primary key, non-null `length` and `weight`, nullable timestamps. -/
structure Roll where
  id : Nat
  length : ℚ
  weight : ℚ
  date_added : Option ℚ
  date_removed : Option ℚ
  deriving Repr, DecidableEq

/-- The database state: the rows of the one table, plus the next value of the
autoincrement primary key. -/
structure Store where
  rolls : List Roll
  next_id : Nat
  deriving Repr, DecidableEq

/-- `HTTPException(status_code, detail)` raised by the source. -/
structure HTTPError where
  status_code : Nat
  detail : String
  deriving Repr, DecidableEq

/-- Pydantic `RollCreate`: the request body of the create operation. -/
structure RollCreate where
  length : ℚ
  weight : ℚ
  deriving Repr, DecidableEq

/-- Pydantic `RollStats`: the eleven aggregate fields returned by
`get_stats`. -/
structure RollStats where
  added_count : Nat
  removed_count : Nat
  avg_length : ℚ
  avg_weight : ℚ
  min_length : ℚ
  max_length : ℚ
  min_weight : ℚ
  max_weight : ℚ
  total_weight : ℚ
  min_gap : ℚ
  max_gap : ℚ
  deriving Repr, DecidableEq

/-- `db_session.query(Roll).filter(Roll.id == roll_id).first()`: the first row
whose primary key matches. -/
def find_first (rolls : List Roll) (roll_id : Nat) : Option Roll :=
  rolls.find? (fun r => r.id == roll_id)

/-- `CRUDRoll.create_roll`: insert a new row with the given `length` and
`weight`; the store assigns the primary key and the column default stamps
`date_added = datetime.now()`; `date_removed` starts NULL. Returns the
refreshed row and the new store. -/
def create_roll (s : Store) (now : ℚ) (roll : RollCreate) : Roll × Store :=
  let db_roll : Roll :=
    { id := s.next_id, length := roll.length, weight := roll.weight,
      date_added := some now, date_removed := none }
  (db_roll, { rolls := s.rolls ++ [db_roll], next_id := s.next_id + 1 })

/-- The committed effect of a successful `delete_roll`: the row (identified by
primary key) gets `date_removed = now`; everything else is unchanged. -/
def removeStamp (s : Store) (now : ℚ) (roll_id : Nat) : Store :=
  { rolls := s.rolls.map (fun r =>
      if r.id == roll_id then { r with date_removed := some now } else r),
    next_id := s.next_id }

/-- `CRUDRoll.delete_roll`: load the row by id; raise 404 `Roll not found` if
absent; raise 400 `Roll already removed` if `date_removed` is set (a datetime
is truthy in Python exactly when it is not None); otherwise stamp
`date_removed = datetime.now()`, commit, and return the updated row. -/
def delete_roll (s : Store) (now : ℚ) (roll_id : Nat) :
    Except HTTPError (Roll × Store) :=
  match find_first s.rolls roll_id with
  | none => .error ⟨404, "Roll not found"⟩
  | some db_roll =>
    if db_roll.date_removed.isSome then
      .error ⟨400, "Roll already removed"⟩
    else
      .ok ({ db_roll with date_removed := some now }, removeStamp s now roll_id)

/-- `CRUDRoll.get_roll`: load the row by id; raise 404 `Roll not found` if
absent. A pure read: no store is returned because none is changed. -/
def get_roll (s : Store) (roll_id : Nat) : Except HTTPError Roll :=
  match find_first s.rolls roll_id with
  | none => .error ⟨404, "Roll not found"⟩
  | some db_roll => .ok db_roll

/-- The eight optional filter bounds of `CRUDRoll.get_rolls`. -/
structure RollFilters where
  length_min : Option ℚ
  length_max : Option ℚ
  weight_min : Option ℚ
  weight_max : Option ℚ
  date_added_min : Option ℚ
  date_added_max : Option ℚ
  date_removed_min : Option ℚ
  date_removed_max : Option ℚ
  deriving Repr, DecidableEq

/-- The all-`None` filter object (no query parameter present). -/
def noFilters : RollFilters := ⟨none, none, none, none, none, none, none, none⟩

/-- SQL `column >= bound` on a nullable column: NULL never matches. -/
def optGe (field : Option ℚ) (bound : ℚ) : Bool :=
  match field with
  | none => false
  | some t => bound ≤ t

/-- SQL `column <= bound` on a nullable column: NULL never matches. -/
def optLe (field : Option ℚ) (bound : ℚ) : Bool :=
  match field with
  | none => false
  | some t => t ≤ bound

/-- One `if bound is not None: query = query.filter(...)` step of
`get_rolls`. -/
def applyOptFilter (q : List Roll) (bound : Option ℚ) (p : Roll → ℚ → Bool) :
    List Roll :=
  match bound with
  | none => q
  | some v => q.filter (fun r => p r v)

/-- `CRUDRoll.get_rolls`: start from all rows and narrow by each present
bound, in the source's order; each comparison is inclusive. -/
def get_rolls (s : Store) (f : RollFilters) : List Roll :=
  let q := s.rolls
  let q := applyOptFilter q f.length_min (fun r v => decide (v ≤ r.length))
  let q := applyOptFilter q f.length_max (fun r v => decide (r.length ≤ v))
  let q := applyOptFilter q f.weight_min (fun r v => decide (v ≤ r.weight))
  let q := applyOptFilter q f.weight_max (fun r v => decide (r.weight ≤ v))
  let q := applyOptFilter q f.date_added_min (fun r v => optGe r.date_added v)
  let q := applyOptFilter q f.date_added_max (fun r v => optLe r.date_added v)
  let q := applyOptFilter q f.date_removed_min (fun r v => optGe r.date_removed v)
  let q := applyOptFilter q f.date_removed_max (fun r v => optLe r.date_removed v)
  q

/-- SQL `column BETWEEN lo AND hi` on a nullable column: inclusive on both
ends, NULL never matches. -/
def betweenOpt (field : Option ℚ) (lo hi : ℚ) : Bool :=
  match field with
  | none => false
  | some t => lo ≤ t && t ≤ hi

/-- The `rolls_added` query of `get_stats`: rows whose `date_added` lies in
the inclusive window. -/
def addedSet (s : Store) (start_date end_date : ℚ) : List Roll :=
  s.rolls.filter (fun r => betweenOpt r.date_added start_date end_date)

/-- The `rolls_removed` query of `get_stats`: rows whose `date_removed` lies
in the inclusive window, independently of `date_added`. -/
def removedSet (s : Store) (start_date end_date : ℚ) : List Roll :=
  s.rolls.filter (fun r => betweenOpt r.date_removed start_date end_date)

/-- Python `min` over a list; the source only calls it under a guard that the
list is nonempty, so the value on `[]` (here `0`) is never used there. -/
def listMin : List ℚ → ℚ
  | [] => 0
  | x :: xs => xs.foldl min x

/-- Python `max` over a list; same convention as `listMin`. -/
def listMax : List ℚ → ℚ
  | [] => 0
  | x :: xs => xs.foldl max x

/-- The `gaps` comprehension of `get_stats`: for every row having both
timestamps (Python truthiness on datetimes is not-None), the dwell time
`(date_removed - date_added).total_seconds() / 3600` in fractional hours. -/
def gapsOf (rolls : List Roll) : List ℚ :=
  rolls.filterMap (fun r =>
    match r.date_removed, r.date_added with
    | some dr, some da => some ((dr - da) / 3600)
    | _, _ => none)

/-- `CRUDRoll.get_stats`: aggregate statistics over the inclusive window
`[start_date, end_date]`. Averages and length/weight extrema are taken over
the added set when it is nonempty and are `0` otherwise; `total_weight` is
summed unconditionally; gap extrema are over the gaps of the removed set and
are `0` when there is no gap. There is no validation of
`start_date <= end_date` anywhere in the source. -/
def get_stats (s : Store) (start_date end_date : ℚ) : RollStats :=
  let rolls_added := addedSet s start_date end_date
  let rolls_removed := removedSet s start_date end_date
  let added_count := rolls_added.length
  let removed_count := rolls_removed.length
  let lengths := rolls_added.map Roll.length
  let weights := rolls_added.map Roll.weight
  let avg_length := if 0 < added_count then lengths.sum / (added_count : ℚ) else 0
  let avg_weight := if 0 < added_count then weights.sum / (added_count : ℚ) else 0
  let min_length := if 0 < added_count then listMin lengths else 0
  let max_length := if 0 < added_count then listMax lengths else 0
  let min_weight := if 0 < added_count then listMin weights else 0
  let max_weight := if 0 < added_count then listMax weights else 0
  let total_weight := weights.sum
  let gaps := gapsOf rolls_removed
  let min_gap := if gaps.length > 0 then listMin gaps else 0
  let max_gap := if gaps.length > 0 then listMax gaps else 0
  ⟨added_count, removed_count, avg_length, avg_weight, min_length, max_length,
   min_weight, max_weight, total_weight, min_gap, max_gap⟩

/-- The `DELETE /rolls/{roll_id}` handler: it wraps `crud_roll.delete_roll`
in a bare `except Exception` that answers 500 `Internal Server Error`. In the
source, `HTTPException` is a subclass of `Exception`, so the 404 and 400
raised inside `delete_roll` are caught here too and replaced by the 500. -/
def delete_roll_endpoint (s : Store) (now : ℚ) (roll_id : Nat) :
    Except HTTPError (Roll × Store) :=
  match delete_roll s now roll_id with
  | .ok x => .ok x
  | .error _ => .error ⟨500, "Internal Server Error"⟩

/-- The `GET /rolls/{roll_id}` handler: same bare `except Exception` wrapper
around `crud_roll.get_roll`, with the same consequence for the 404. -/
def get_roll_endpoint (s : Store) (roll_id : Nat) : Except HTTPError Roll :=
  match get_roll s roll_id with
  | .ok r => .ok r
  | .error _ => .error ⟨500, "Internal Server Error"⟩

/-- The five repository operations, as one type, for stating store-level
invariants uniformly. -/
inductive Op where
  | create (roll : RollCreate) : Op
  | delete (roll_id : Nat) : Op
  | getById (roll_id : Nat) : Op
  | listRolls (f : RollFilters) : Op
  | stats (start_date end_date : ℚ) : Op
  deriving Repr, DecidableEq

/-- The store after running one operation at time `now`. `create` appends its
row, a successful `delete` stamps its row, a failed `delete` commits nothing,
and the three read operations run queries only. -/
def runOp (op : Op) (now : ℚ) (s : Store) : Store :=
  match op with
  | .create roll => (create_roll s now roll).2
  | .delete roll_id =>
    match delete_roll s now roll_id with
    | .ok x => x.2
    | .error _ => s
  | .getById roll_id =>
    match get_roll s roll_id with
    | .ok _ => s
    | .error _ => s
  | .listRolls f =>
    let _ := get_rolls s f
    s
  | .stats start_date end_date =>
    let _ := get_stats s start_date end_date
    s

/-! Helper lemmas about the embedded operations. -/

theorem foldl_min_eq_or_mem (x : ℚ) (xs : List ℚ) :
    xs.foldl min x = x ∨ xs.foldl min x ∈ xs := by
  induction xs generalizing x with
  | nil => exact Or.inl rfl
  | cons y ys ih =>
    simp only [List.foldl_cons]
    rcases ih (min x y) with h | h
    · rw [h]
      rcases min_choice x y with h2 | h2
      · exact Or.inl h2
      · rw [h2]; exact Or.inr (List.mem_cons_self y ys)
    · exact Or.inr (List.mem_cons_of_mem y h)

theorem foldl_min_le (x : ℚ) (xs : List ℚ) :
    xs.foldl min x ≤ x ∧ ∀ z ∈ xs, xs.foldl min x ≤ z := by
  induction xs generalizing x with
  | nil => exact ⟨le_refl x, by intro z hz; cases hz⟩
  | cons y ys ih =>
    obtain ⟨h1, h2⟩ := ih (min x y)
    simp only [List.foldl_cons]
    refine ⟨le_trans h1 (min_le_left x y), ?_⟩
    intro z hz
    rcases List.mem_cons.mp hz with rfl | hz'
    · exact le_trans h1 (min_le_right x z)
    · exact h2 z hz'

theorem foldl_max_eq_or_mem (x : ℚ) (xs : List ℚ) :
    xs.foldl max x = x ∨ xs.foldl max x ∈ xs := by
  induction xs generalizing x with
  | nil => exact Or.inl rfl
  | cons y ys ih =>
    simp only [List.foldl_cons]
    rcases ih (max x y) with h | h
    · rw [h]
      rcases max_choice x y with h2 | h2
      · exact Or.inl h2
      · rw [h2]; exact Or.inr (List.mem_cons_self y ys)
    · exact Or.inr (List.mem_cons_of_mem y h)

theorem foldl_le_max (x : ℚ) (xs : List ℚ) :
    x ≤ xs.foldl max x ∧ ∀ z ∈ xs, z ≤ xs.foldl max x := by
  induction xs generalizing x with
  | nil => exact ⟨le_refl x, by intro z hz; cases hz⟩
  | cons y ys ih =>
    obtain ⟨h1, h2⟩ := ih (max x y)
    simp only [List.foldl_cons]
    refine ⟨le_trans (le_max_left x y) h1, ?_⟩
    intro z hz
    rcases List.mem_cons.mp hz with rfl | hz'
    · exact le_trans (le_max_right x z) h1
    · exact h2 z hz'

theorem listMin_spec {l : List ℚ} (h : l ≠ []) :
    listMin l ∈ l ∧ ∀ x ∈ l, listMin l ≤ x := by
  cases l with
  | nil => exact absurd rfl h
  | cons y ys =>
    constructor
    · show ys.foldl min y ∈ y :: ys
      rcases foldl_min_eq_or_mem y ys with h2 | h2
      · rw [h2]; exact List.mem_cons_self y ys
      · exact List.mem_cons_of_mem y h2
    · intro x hx
      show ys.foldl min y ≤ x
      obtain ⟨h1, h2⟩ := foldl_min_le y ys
      rcases List.mem_cons.mp hx with rfl | hx'
      · exact h1
      · exact h2 x hx'

theorem listMax_spec {l : List ℚ} (h : l ≠ []) :
    listMax l ∈ l ∧ ∀ x ∈ l, x ≤ listMax l := by
  cases l with
  | nil => exact absurd rfl h
  | cons y ys =>
    constructor
    · show ys.foldl max y ∈ y :: ys
      rcases foldl_max_eq_or_mem y ys with h2 | h2
      · rw [h2]; exact List.mem_cons_self y ys
      · exact List.mem_cons_of_mem y h2
    · intro x hx
      show x ≤ ys.foldl max y
      obtain ⟨h1, h2⟩ := foldl_le_max y ys
      rcases List.mem_cons.mp hx with rfl | hx'
      · exact h1
      · exact h2 x hx'

theorem betweenOpt_true_iff {field : Option ℚ} {lo hi : ℚ} :
    betweenOpt field lo hi = true ↔ ∃ t, field = some t ∧ lo ≤ t ∧ t ≤ hi := by
  cases field <;> simp [betweenOpt]

theorem betweenOpt_window_le {field : Option ℚ} {lo hi : ℚ}
    (h : betweenOpt field lo hi = true) : lo ≤ hi := by
  obtain ⟨t, -, h1, h2⟩ := betweenOpt_true_iff.mp h
  exact le_trans h1 h2

theorem optGe_true_iff {field : Option ℚ} {v : ℚ} :
    optGe field v = true ↔ ∃ t ∈ field, v ≤ t := by
  cases field <;> simp [optGe]

theorem optLe_true_iff {field : Option ℚ} {v : ℚ} :
    optLe field v = true ↔ ∃ t ∈ field, t ≤ v := by
  cases field <;> simp [optLe]

theorem mem_applyOptFilter {q : List Roll} {bound : Option ℚ}
    {p : Roll → ℚ → Bool} {r : Roll} :
    r ∈ applyOptFilter q bound p ↔ r ∈ q ∧ ∀ v ∈ bound, p r v = true := by
  cases bound with
  | none => simp [applyOptFilter]
  | some v => simp [applyOptFilter, List.mem_filter]

theorem runOp_getById (roll_id : Nat) (now : ℚ) (s : Store) :
    runOp (Op.getById roll_id) now s = s := by
  simp only [runOp]
  cases get_roll s roll_id <;> rfl

theorem runOp_listRolls (f : RollFilters) (now : ℚ) (s : Store) :
    runOp (Op.listRolls f) now s = s := rfl

theorem runOp_stats (a b now : ℚ) (s : Store) :
    runOp (Op.stats a b) now s = s := rfl

/-! Claim theorems. -/

/-- C8: `create_roll` inserts and returns a record whose `length` and
`weight` equal the inputs, whose `date_added` is the current time, whose
`date_removed` is null, and whose id is assigned by the store (the
autoincrement key, hence present); the new store is the old rows with the
new row appended, so no existing record is modified. -/
theorem create_roll_spec (s : Store) (now : ℚ) (rc : RollCreate) :
    (create_roll s now rc).1.length = rc.length ∧
    (create_roll s now rc).1.weight = rc.weight ∧
    (create_roll s now rc).1.date_added = some now ∧
    (create_roll s now rc).1.date_removed = none ∧
    (create_roll s now rc).1.id = s.next_id ∧
    (create_roll s now rc).2.rolls = s.rolls ++ [(create_roll s now rc).1] ∧
    (create_roll s now rc).2.next_id = s.next_id + 1 :=
  ⟨rfl, rfl, rfl, rfl, rfl, rfl, rfl⟩

/-- C10: the `getById` and `listRolls` operations leave the store unchanged,
whether the lookup succeeds or fails with 404. -/
theorem read_ops_preserve_store (s : Store) (now : ℚ) (roll_id : Nat)
    (f : RollFilters) :
    runOp (Op.getById roll_id) now s = s ∧ runOp (Op.listRolls f) now s = s :=
  ⟨runOp_getById roll_id now s, runOp_listRolls f now s⟩

/-- A store holding one roll that is already removed. -/
def removedStore : Store := ⟨[⟨1, 10, 20, some 5, some 6⟩], 2⟩

/-- C2: the repository raises 404 for a missing id and 400 for an
already-removed roll, but the endpoint's bare catch-all also catches those
`HTTPException`s (they subclass `Exception`) and replaces every failure by
the generic 500, so the client never sees the distinct 404/400 codes. -/
theorem endpoint_collapse_500 :
    delete_roll ⟨[], 1⟩ 0 9999 = .error ⟨404, "Roll not found"⟩ ∧
    delete_roll_endpoint ⟨[], 1⟩ 0 9999 = .error ⟨500, "Internal Server Error"⟩ ∧
    delete_roll removedStore 7 1 = .error ⟨400, "Roll already removed"⟩ ∧
    delete_roll_endpoint removedStore 7 1 = .error ⟨500, "Internal Server Error"⟩ ∧
    get_roll ⟨[], 1⟩ 9999 = .error ⟨404, "Roll not found"⟩ ∧
    get_roll_endpoint ⟨[], 1⟩ 9999 = .error ⟨500, "Internal Server Error"⟩ :=
  ⟨rfl, rfl, rfl, rfl, rfl, rfl⟩

theorem find_first_eq_none_iff {rolls : List Roll} {roll_id : Nat} :
    find_first rolls roll_id = none ↔ ∀ r ∈ rolls, r.id ≠ roll_id := by
  simp [find_first, List.find?_eq_none]

theorem find_first_removeStamp (s : Store) (now : ℚ) (roll_id : Nat) :
    find_first (removeStamp s now roll_id).rolls roll_id =
      (find_first s.rolls roll_id).map (fun r =>
        if r.id == roll_id then { r with date_removed := some now } else r) := by
  simp only [find_first, removeStamp, List.find?_map]
  have hcomp : ((fun r : Roll => r.id == roll_id) ∘ fun r : Roll =>
      if r.id == roll_id then { r with date_removed := some now } else r) =
      fun r : Roll => r.id == roll_id := by
    funext r
    by_cases h : (r.id == roll_id) = true <;> simp [Function.comp, h]
  rw [hcomp]

/-- A store holding one roll that is still active. -/
def activeStore : Store := ⟨[⟨1, 10, 20, some 5, none⟩], 2⟩

/-- C1: `delete_roll` fails with 404 `Roll not found` when no record with the
id exists; fails with 400 `Roll already removed` when the found record's
`date_removed` is already set; otherwise stamps `date_removed := now` and
returns the updated record — and deleting again in the resulting store fails
with 400 `Roll already removed`. -/
theorem delete_roll_spec (s : Store) (now now2 : ℚ) (roll_id : Nat) :
    ((∀ r ∈ s.rolls, r.id ≠ roll_id) →
      delete_roll s now roll_id = .error ⟨404, "Roll not found"⟩) ∧
    (∀ r, find_first s.rolls roll_id = some r → r.date_removed.isSome = true →
      delete_roll s now roll_id = .error ⟨400, "Roll already removed"⟩) ∧
    (∀ r, find_first s.rolls roll_id = some r → r.date_removed = none →
      delete_roll s now roll_id =
        .ok ({ r with date_removed := some now }, removeStamp s now roll_id) ∧
      delete_roll (removeStamp s now roll_id) now2 roll_id =
        .error ⟨400, "Roll already removed"⟩) := by
  refine ⟨?_, ?_, ?_⟩
  · intro h
    have hf : find_first s.rolls roll_id = none := find_first_eq_none_iff.mpr h
    simp [delete_roll, hf]
  · intro r hf hr
    simp [delete_roll, hf, hr]
  · intro r hf hr
    have hid : (r.id == roll_id) = true := by
      have := List.find?_some (p := fun r : Roll => r.id == roll_id) hf
      exact this
    constructor
    · simp only [delete_roll, hf]
      rw [hr]
      rfl
    · have hfr : find_first (removeStamp s now roll_id).rolls roll_id =
          some { r with date_removed := some now } := by
        rw [find_first_removeStamp, hf]
        show some (if r.id == roll_id then { r with date_removed := some now } else r) =
          some { r with date_removed := some now }
        rw [if_pos hid]
      simp only [delete_roll, hfr]
      rfl

theorem delete_roll_spec_witness :
    find_first activeStore.rolls 1 = some ⟨1, 10, 20, some 5, none⟩ ∧
    delete_roll activeStore 7 1 =
      .ok (⟨1, 10, 20, some 5, some 7⟩, removeStamp activeStore 7 1) ∧
    delete_roll (removeStamp activeStore 7 1) 8 1 =
      .error ⟨400, "Roll already removed"⟩ := by
  obtain ⟨-, -, h3⟩ := delete_roll_spec activeStore 7 8 1
  obtain ⟨h1, h2⟩ := h3 ⟨1, 10, 20, some 5, none⟩ (by decide) rfl
  exact ⟨by decide, h1, h2⟩

/-- The all-zero stats record. -/
def zeroStats : RollStats := ⟨0, 0, 0, 0, 0, 0, 0, 0, 0, 0, 0⟩

/-- C3 counterexample: `get_stats` performs no validation of the window, so
with `start_date = 9 > 3 = end_date` (a store holding one roll) it does not
fail with any `InvalidRange` condition — it returns a `RollStats` record.
No code path in the source raises on an inverted window. -/
theorem get_stats_range_counterexample :
    get_stats ⟨[⟨1, 10, 20, some 5, none⟩], 2⟩ 9 3 = zeroStats := by decide

/-- C3 amended: when `start_date > end_date`, `get_stats` succeeds and
returns the all-zero stats record, because the inclusive window is empty. -/
theorem get_stats_inverted_range (s : Store) (a b : ℚ) (h : b < a) :
    get_stats s a b = zeroStats := by
  have hwin : ∀ field : Option ℚ, betweenOpt field a b = false := by
    intro field
    cases hfa : betweenOpt field a b with
    | false => rfl
    | true => exact absurd (betweenOpt_window_le hfa) (not_le.mpr h)
  have hadd : addedSet s a b = [] := by
    simp only [addedSet]
    exact List.filter_eq_nil_iff.mpr (fun r _ => by simp [hwin])
  have hrem : removedSet s a b = [] := by
    simp only [removedSet]
    exact List.filter_eq_nil_iff.mpr (fun r _ => by simp [hwin])
  simp [get_stats, hadd, hrem, gapsOf, zeroStats]

theorem get_stats_inverted_range_witness :
    (3 : ℚ) < 9 ∧ get_stats ⟨[⟨2, 4, 6, some 1, some 2⟩], 3⟩ 9 3 = zeroStats :=
  ⟨by norm_num, get_stats_inverted_range ⟨[⟨2, 4, 6, some 1, some 2⟩], 3⟩ 9 3 (by norm_num)⟩

/-- C4: `get_stats` counts the added set and sums its weights always; when
the added set is nonempty, `avg_length`/`avg_weight` are the arithmetic
means and the four length/weight fields are genuine extrema (members of the
set bounding every member); when it is empty, all six derived values and
`total_weight` are `0`. -/
theorem get_stats_added_spec (s : Store) (a b : ℚ) :
    (get_stats s a b).added_count = (addedSet s a b).length ∧
    (get_stats s a b).total_weight = ((addedSet s a b).map Roll.weight).sum ∧
    (addedSet s a b ≠ [] →
      (get_stats s a b).avg_length =
        ((addedSet s a b).map Roll.length).sum / ((addedSet s a b).length : ℚ) ∧
      (get_stats s a b).avg_weight =
        ((addedSet s a b).map Roll.weight).sum / ((addedSet s a b).length : ℚ) ∧
      ((get_stats s a b).min_length ∈ (addedSet s a b).map Roll.length ∧
        ∀ x ∈ (addedSet s a b).map Roll.length, (get_stats s a b).min_length ≤ x) ∧
      ((get_stats s a b).max_length ∈ (addedSet s a b).map Roll.length ∧
        ∀ x ∈ (addedSet s a b).map Roll.length, x ≤ (get_stats s a b).max_length) ∧
      ((get_stats s a b).min_weight ∈ (addedSet s a b).map Roll.weight ∧
        ∀ x ∈ (addedSet s a b).map Roll.weight, (get_stats s a b).min_weight ≤ x) ∧
      ((get_stats s a b).max_weight ∈ (addedSet s a b).map Roll.weight ∧
        ∀ x ∈ (addedSet s a b).map Roll.weight, x ≤ (get_stats s a b).max_weight)) ∧
    (addedSet s a b = [] →
      (get_stats s a b).avg_length = 0 ∧ (get_stats s a b).avg_weight = 0 ∧
      (get_stats s a b).min_length = 0 ∧ (get_stats s a b).max_length = 0 ∧
      (get_stats s a b).min_weight = 0 ∧ (get_stats s a b).max_weight = 0 ∧
      (get_stats s a b).total_weight = 0) := by
  have havgl : (get_stats s a b).avg_length =
      if 0 < (addedSet s a b).length then
        ((addedSet s a b).map Roll.length).sum / ((addedSet s a b).length : ℚ)
      else 0 := rfl
  have havgw : (get_stats s a b).avg_weight =
      if 0 < (addedSet s a b).length then
        ((addedSet s a b).map Roll.weight).sum / ((addedSet s a b).length : ℚ)
      else 0 := rfl
  have hminl : (get_stats s a b).min_length =
      if 0 < (addedSet s a b).length then
        listMin ((addedSet s a b).map Roll.length) else 0 := rfl
  have hmaxl : (get_stats s a b).max_length =
      if 0 < (addedSet s a b).length then
        listMax ((addedSet s a b).map Roll.length) else 0 := rfl
  have hminw : (get_stats s a b).min_weight =
      if 0 < (addedSet s a b).length then
        listMin ((addedSet s a b).map Roll.weight) else 0 := rfl
  have hmaxw : (get_stats s a b).max_weight =
      if 0 < (addedSet s a b).length then
        listMax ((addedSet s a b).map Roll.weight) else 0 := rfl
  refine ⟨rfl, rfl, ?_, ?_⟩
  · intro hne
    have hpos : 0 < (addedSet s a b).length := List.length_pos.mpr hne
    have hlne : (addedSet s a b).map Roll.length ≠ [] := by
      simpa using hne
    have hwne : (addedSet s a b).map Roll.weight ≠ [] := by
      simpa using hne
    refine ⟨?_, ?_, ?_, ?_, ?_, ?_⟩
    · rw [havgl, if_pos hpos]
    · rw [havgw, if_pos hpos]
    · rw [hminl, if_pos hpos]
      exact listMin_spec hlne
    · rw [hmaxl, if_pos hpos]
      exact listMax_spec hlne
    · rw [hminw, if_pos hpos]
      exact listMin_spec hwne
    · rw [hmaxw, if_pos hpos]
      exact listMax_spec hwne
  · intro hnil
    have htw : (get_stats s a b).total_weight =
        ((addedSet s a b).map Roll.weight).sum := rfl
    refine ⟨?_, ?_, ?_, ?_, ?_, ?_, ?_⟩ <;>
      simp [havgl, havgw, hminl, hmaxl, hminw, hmaxw, htw, hnil]

/-- Three rolls added in the window (lengths 5, 10, 15; weights 10, 20, 30);
the second is removed 7200 seconds (two hours) after being added, inside the
window. -/
def statsStore : Store :=
  ⟨[⟨1, 5, 10, some 10, none⟩, ⟨2, 10, 20, some 20, some 7220⟩,
    ⟨3, 15, 30, some 30, none⟩], 4⟩

theorem get_stats_added_spec_witness :
    addedSet statsStore 0 10000 ≠ [] ∧
    ((get_stats statsStore 0 10000).avg_length =
        ((addedSet statsStore 0 10000).map Roll.length).sum /
          ((addedSet statsStore 0 10000).length : ℚ) ∧
      ((get_stats statsStore 0 10000).min_length ∈
          (addedSet statsStore 0 10000).map Roll.length ∧
        ∀ x ∈ (addedSet statsStore 0 10000).map Roll.length,
          (get_stats statsStore 0 10000).min_length ≤ x)) := by
  have h := (get_stats_added_spec statsStore 0 10000).2.2.1 (by decide)
  exact ⟨by decide, h.1, h.2.2.1⟩

/-- C5: `get_stats` counts the removed set (selected by `date_removed` alone,
regardless of `date_added`); the gaps are exactly the values
`(date_removed - date_added) / 3600` of the removed rolls having both
timestamps; `min_gap`/`max_gap` are genuine extrema of the gaps when some
exist and are both `0` otherwise. -/
theorem get_stats_removed_spec (s : Store) (a b : ℚ) :
    (get_stats s a b).removed_count = (removedSet s a b).length ∧
    (∀ r : Roll, r ∈ removedSet s a b ↔
      r ∈ s.rolls ∧ ∃ t, r.date_removed = some t ∧ a ≤ t ∧ t ≤ b) ∧
    (∀ g : ℚ, g ∈ gapsOf (removedSet s a b) ↔
      ∃ r ∈ removedSet s a b, ∃ da dr, r.date_added = some da ∧
        r.date_removed = some dr ∧ g = (dr - da) / 3600) ∧
    (gapsOf (removedSet s a b) ≠ [] →
      ((get_stats s a b).min_gap ∈ gapsOf (removedSet s a b) ∧
        ∀ g ∈ gapsOf (removedSet s a b), (get_stats s a b).min_gap ≤ g) ∧
      ((get_stats s a b).max_gap ∈ gapsOf (removedSet s a b) ∧
        ∀ g ∈ gapsOf (removedSet s a b), g ≤ (get_stats s a b).max_gap)) ∧
    (gapsOf (removedSet s a b) = [] →
      (get_stats s a b).min_gap = 0 ∧ (get_stats s a b).max_gap = 0) := by
  have hming : (get_stats s a b).min_gap =
      if 0 < (gapsOf (removedSet s a b)).length then
        listMin (gapsOf (removedSet s a b)) else 0 := rfl
  have hmaxg : (get_stats s a b).max_gap =
      if 0 < (gapsOf (removedSet s a b)).length then
        listMax (gapsOf (removedSet s a b)) else 0 := rfl
  refine ⟨rfl, ?_, ?_, ?_, ?_⟩
  · intro r
    simp only [removedSet, List.mem_filter, betweenOpt_true_iff]
  · intro g
    simp only [gapsOf, List.mem_filterMap]
    constructor
    · rintro ⟨r, hr, hm⟩
      cases hdr : r.date_removed with
      | none =>
        rw [hdr] at hm
        simp at hm
      | some dr =>
        cases hda : r.date_added with
        | none =>
          rw [hdr, hda] at hm
          simp at hm
        | some da =>
          rw [hdr, hda] at hm
          have hg : some ((dr - da) / 3600) = some g := hm
          exact ⟨r, hr, da, dr, hda, hdr, (Option.some.inj hg).symm⟩
    · rintro ⟨r, hr, da, dr, hda, hdr, rfl⟩
      refine ⟨r, hr, ?_⟩
      rw [hdr, hda]
  · intro hne
    have hpos : 0 < (gapsOf (removedSet s a b)).length := List.length_pos.mpr hne
    constructor
    · rw [hming, if_pos hpos]
      exact listMin_spec hne
    · rw [hmaxg, if_pos hpos]
      exact listMax_spec hne
  · intro hnil
    rw [hming, hmaxg, hnil]
    simp

theorem get_stats_removed_spec_witness :
    gapsOf (removedSet statsStore 0 10000) ≠ [] ∧
    (((get_stats statsStore 0 10000).min_gap ∈ gapsOf (removedSet statsStore 0 10000) ∧
      ∀ g ∈ gapsOf (removedSet statsStore 0 10000),
        (get_stats statsStore 0 10000).min_gap ≤ g) ∧
     ((get_stats statsStore 0 10000).max_gap ∈ gapsOf (removedSet statsStore 0 10000) ∧
      ∀ g ∈ gapsOf (removedSet statsStore 0 10000),
        g ≤ (get_stats statsStore 0 10000).max_gap)) ∧
    (get_stats statsStore 0 10000).removed_count = 1 :=
  ⟨by decide, (get_stats_removed_spec statsStore 0 10000).2.2.2.1 (by decide), by decide⟩

/-- Spec-side filter predicate, written from the spec's words: each present
bound is an inclusive comparison against the corresponding field, absent
bounds impose no constraint, and a NULL timestamp field never satisfies a
present bound on it. -/
def matchesFilters (f : RollFilters) (r : Roll) : Prop :=
  (∀ v ∈ f.length_min, v ≤ r.length) ∧
  (∀ v ∈ f.length_max, r.length ≤ v) ∧
  (∀ v ∈ f.weight_min, v ≤ r.weight) ∧
  (∀ v ∈ f.weight_max, r.weight ≤ v) ∧
  (∀ v ∈ f.date_added_min, ∃ t ∈ r.date_added, v ≤ t) ∧
  (∀ v ∈ f.date_added_max, ∃ t ∈ r.date_added, t ≤ v) ∧
  (∀ v ∈ f.date_removed_min, ∃ t ∈ r.date_removed, v ≤ t) ∧
  (∀ v ∈ f.date_removed_max, ∃ t ∈ r.date_removed, t ≤ v)

/-- C6: `get_rolls` returns exactly the records satisfying every present
bound (inclusive comparisons, absent bounds unconstrained); when nothing
matches it returns the empty list, and with no filters it returns all
records. -/
theorem get_rolls_spec (s : Store) (f : RollFilters) :
    (∀ r : Roll, r ∈ get_rolls s f ↔ r ∈ s.rolls ∧ matchesFilters f r) ∧
    ((∀ r ∈ s.rolls, ¬ matchesFilters f r) → get_rolls s f = []) ∧
    get_rolls s noFilters = s.rolls := by
  have hmem : ∀ r : Roll, r ∈ get_rolls s f ↔ r ∈ s.rolls ∧ matchesFilters f r := by
    intro r
    simp only [get_rolls, mem_applyOptFilter, decide_eq_true_eq,
      optGe_true_iff, optLe_true_iff, matchesFilters]
    tauto
  refine ⟨hmem, ?_, rfl⟩
  intro hno
  rw [List.eq_nil_iff_forall_not_mem]
  intro r hr
  have hr2 := (hmem r).mp hr
  exact hno r hr2.1 hr2.2

/-- The `length_min=15` filter of the spec's testable property. -/
def lengthMin15 : RollFilters := ⟨some 15, none, none, none, none, none, none, none⟩

theorem get_rolls_spec_witness :
    (∀ r ∈ activeStore.rolls, ¬ matchesFilters lengthMin15 r) ∧
    get_rolls activeStore lengthMin15 = [] := by
  have hno : ∀ r ∈ activeStore.rolls, ¬ matchesFilters lengthMin15 r := by
    intro r hr
    simp only [activeStore, List.mem_singleton] at hr
    subst hr
    intro hm
    have h15 : (15 : ℚ) ≤ 10 := hm.1 15 rfl
    norm_num at h15
  exact ⟨hno, (get_rolls_spec activeStore lengthMin15).2.1 hno⟩

/-- Per-roll invariant: `date_removed`, when present, is at least
`date_added`. -/
def rollInv (r : Roll) : Prop :=
  ∀ dr ∈ r.date_removed, ∀ da ∈ r.date_added, da ≤ dr

/-- C7: assuming the store's primary keys are unique, every rolls satisfy the
invariant, and the clock has not run backwards (`now` is at least every
recorded `date_added`), each operation preserves the invariant, and every
existing roll survives with its `id`, `length`, `weight` and `date_added`
unchanged and its `date_removed` never cleared or changed once set. -/
theorem ops_preserve_invariants (op : Op) (now : ℚ) (s : Store)
    (hids : (s.rolls.map Roll.id).Nodup)
    (hinv : ∀ r ∈ s.rolls, rollInv r)
    (hclock : ∀ r ∈ s.rolls, ∀ da ∈ r.date_added, da ≤ now) :
    (∀ r' ∈ (runOp op now s).rolls, rollInv r') ∧
    (∀ r ∈ s.rolls, ∃ r' ∈ (runOp op now s).rolls,
      r'.id = r.id ∧ r'.length = r.length ∧ r'.weight = r.weight ∧
      r'.date_added = r.date_added ∧
      ∀ t, r.date_removed = some t → r'.date_removed = some t) := by
  have triv : ∀ s0 : Store, (∀ r ∈ s0.rolls, rollInv r) →
      (∀ r' ∈ s0.rolls, rollInv r') ∧
      (∀ r ∈ s0.rolls, ∃ r' ∈ s0.rolls, r'.id = r.id ∧ r'.length = r.length ∧
        r'.weight = r.weight ∧ r'.date_added = r.date_added ∧
        ∀ t, r.date_removed = some t → r'.date_removed = some t) := by
    intro s0 h0
    exact ⟨h0, fun r hr => ⟨r, hr, rfl, rfl, rfl, rfl, fun t ht => ht⟩⟩
  cases op with
  | getById roll_id =>
    rw [runOp_getById]
    exact triv s hinv
  | listRolls f =>
    rw [runOp_listRolls]
    exact triv s hinv
  | stats a b =>
    rw [runOp_stats]
    exact triv s hinv
  | create rc =>
    constructor
    · intro r' hr'
      rcases List.mem_append.mp hr' with h | h
      · exact hinv r' h
      · rcases List.mem_singleton.mp h with rfl
        unfold rollInv
        intro dr hdr
        exact absurd hdr (Option.not_mem_none dr)
    · intro r hr
      exact ⟨r, List.mem_append_left _ hr, rfl, rfl, rfl, rfl, fun t ht => ht⟩
  | delete roll_id =>
    cases hf : find_first s.rolls roll_id with
    | none =>
      have hrun : runOp (Op.delete roll_id) now s = s := by
        simp only [runOp, delete_roll, hf]
      rw [hrun]
      exact triv s hinv
    | some db =>
      have hf' : List.find? (fun r : Roll => r.id == roll_id) s.rolls = some db := hf
      have hdbmem : db ∈ s.rolls := List.mem_of_find?_eq_some hf'
      have hdbid : (db.id == roll_id) = true :=
        @List.find?_some Roll (fun r : Roll => r.id == roll_id) db s.rolls hf'
      by_cases hdr : db.date_removed.isSome = true
      · have hrun : runOp (Op.delete roll_id) now s = s := by
          simp only [runOp, delete_roll, hf, if_pos hdr]
        rw [hrun]
        exact triv s hinv
      · have hrun : runOp (Op.delete roll_id) now s = removeStamp s now roll_id := by
          simp only [runOp, delete_roll, hf, if_neg hdr]
        have hdbnone : db.date_removed = none := Option.not_isSome_iff_eq_none.mp hdr
        rw [hrun]
        constructor
        · intro r' hr'
          simp only [removeStamp, List.mem_map] at hr'
          obtain ⟨r, hr, hupd⟩ := hr'
          by_cases hid : (r.id == roll_id) = true
          · rw [if_pos hid] at hupd
            subst hupd
            unfold rollInv
            intro dr hdr' da hda
            have hdreq : some now = some dr := hdr'
            rw [← Option.some.inj hdreq]
            exact hclock r hr da hda
          · rw [if_neg hid] at hupd
            subst hupd
            exact hinv r hr
        · intro r hr
          refine ⟨if r.id == roll_id then { r with date_removed := some now } else r,
            ?_, ?_⟩
          · simp only [removeStamp, List.mem_map]
            exact ⟨r, hr, rfl⟩
          · by_cases hid : (r.id == roll_id) = true
            · rw [if_pos hid]
              refine ⟨rfl, rfl, rfl, rfl, ?_⟩
              intro t ht
              have hreq : r = db := by
                have h1 : r.id = roll_id := beq_iff_eq.mp hid
                have h2 : db.id = roll_id := beq_iff_eq.mp hdbid
                exact List.inj_on_of_nodup_map hids hr hdbmem (by rw [h1, h2])
              rw [hreq, hdbnone] at ht
              cases ht
            · rw [if_neg hid]
              exact ⟨rfl, rfl, rfl, rfl, fun t ht => ht⟩

theorem ops_preserve_invariants_witness :
    ((activeStore.rolls.map Roll.id).Nodup ∧ (∀ r ∈ activeStore.rolls, rollInv r) ∧
      (∀ r ∈ activeStore.rolls, ∀ da ∈ r.date_added, da ≤ (7 : ℚ))) ∧
    ((∀ r' ∈ (runOp (Op.delete 1) 7 activeStore).rolls, rollInv r') ∧
      (∀ r ∈ activeStore.rolls, ∃ r' ∈ (runOp (Op.delete 1) 7 activeStore).rolls,
        r'.id = r.id ∧ r'.length = r.length ∧ r'.weight = r.weight ∧
        r'.date_added = r.date_added ∧
        ∀ t, r.date_removed = some t → r'.date_removed = some t)) := by
  have hids : (activeStore.rolls.map Roll.id).Nodup := by decide
  have hinv : ∀ r ∈ activeStore.rolls, rollInv r := by
    intro r hr
    simp only [activeStore, List.mem_singleton] at hr
    subst hr
    unfold rollInv
    intro dr hdr
    exact absurd hdr (Option.not_mem_none dr)
  have hclock : ∀ r ∈ activeStore.rolls, ∀ da ∈ r.date_added, da ≤ (7 : ℚ) := by
    intro r hr da hda
    simp only [activeStore, List.mem_singleton] at hr
    subst hr
    have h5 : some (5 : ℚ) = some da := hda
    rw [← Option.some.inj h5]
    norm_num
  exact ⟨⟨hids, hinv, hclock⟩,
    ops_preserve_invariants (Op.delete 1) 7 activeStore hids hinv hclock⟩

end Asa
